import Mathlib

set_option maxRecDepth 10000
set_option maxHeartbeats 1000000

/-!
Shallow embedding of `cdp_neighbor_tree.py`.

The program classifies device hostnames into "backbone" (P/PE) devices and
dependant devices with the regular expression `^(?:\w+-)+pe?\d+\.`, finds a
backbone root for a starting hostname by walking the first neighbor of each
device (`find_root`), and builds a parent/child tree over an arena of
`NetworkTreeNode`s (`find_neighbors`, `_add_child`), using the static
adjacency table `STATIC_DATA`.

Python's `\w` and `\d` are modelled over ASCII (alphanumeric or underscore,
and decimal digits), which covers every identifier in the repository.
Python object identity is modelled by indices into an arena of nodes; the
process-wide `existing_nodes` dict is an association list with newest entry
first.  Python exceptions (`KeyError` from `STATIC_DATA[...]`) are modelled
with `Except String`, the error value being the missing key.
-/

/-- The regex literal from the source, `REGEXP_PE_PATTERN = r"^(?:\w+-)+pe?\d+\."`. -/
def REGEXP_PE_PATTERN : String := "^(?:\\w+-)+pe?\\d+\\."

/-- Python `\w` over ASCII: a letter, a digit or an underscore. -/
def isWordChar (c : Char) : Bool := c.isAlphanum || c = '_'

/-- Matches `\d*\.` at the head of the list (the continuation of `\d+\.`
after its first digit). -/
def afterDigits : List Char → Bool
  | [] => false
  | c :: rest => if c = '.' then true else if c.isDigit then afterDigits rest else false

/-- Matches `\d+\.` at the head of the list. -/
def digitsDot : List Char → Bool
  | [] => false
  | c :: rest => c.isDigit && afterDigits rest

/-- Matches `e\d+\.` at the head of the list. -/
def matchTailE : List Char → Bool
  | [] => false
  | c :: rest => c = 'e' && digitsDot rest

/-- Matches `pe?\d+\.` at the head of the list: a literal `p`, an optional
`e`, one or more digits, a literal dot. -/
def matchTail : List Char → Bool
  | [] => false
  | c :: rest => c = 'p' && (matchTailE rest || digitsDot rest)

/-- Backtracking matcher for the label part of the pattern.
With `inWord = false` it matches `(?:\w+-)*pe?\d+\.` at the head of the
list; with `inWord = true` it continues a label already begun, matching
`\w*-(?:\w+-)*pe?\d+\.`. -/
def matchRestM : Bool → List Char → Bool
  | _, [] => false
  | inWord, c :: rest =>
    if inWord then
      if c = '-' then matchRestM false rest else isWordChar c && matchRestM true rest
    else
      matchTail (c :: rest) || (isWordChar c && matchRestM true rest)

/-- Model of `re.search(REGEXP_PE_PATTERN, s)`: the pattern is anchored with `^`, so
this is a match of `(?:\w+-)+pe?\d+\.` at the start of `s`. -/
def matchesPE (s : String) : Bool :=
  match s.data with
  | [] => false
  | c :: rest => isWordChar c && matchRestM true rest

/-- Source function `split_list_by_regex`: the items matching the pattern,
then the items not matching it, both in their original order.  The compiled
pattern is passed as the predicate `p`. -/
def split_list_by_regex (lst : List String) (p : String → Bool) :
    List String × List String :=
  (lst.filter (fun item => p item), lst.filter (fun item => !(p item)))

/-- The static adjacency table `STATIC_DATA` from the source. -/
def STATIC_DATA : List (String × List String) :=
  [ ("sweden-pe1.example.com",
      [ "norway-pe1.example.com", "finland-pe1.example.com",
        "denmark-pe2.example.com", "sweden-a1.example.com",
        "sweden-a2.example.com", "sweden-a4.example.com" ]),
    ("norway-pe1.example.com",
      [ "sweden-pe1.example.com", "denmark-pe1.example.com",
        "iceland-pe1.example.com" ]),
    ("finland-pe1.example.com",
      [ "sweden-pe1.example.com", "greenland-pe1.example.com" ]),
    ("denmark-pe2.example.com",
      [ "sweden-pe1.example.com", "denmark-a1.example.com" ]),
    ("denmark-a1.example.com", [ "denmark-pe2.example.com" ]),
    ("sweden-a1.example.com",
      [ "sweden-pe1.example.com", "sweden-a3.example.com",
        "sweden-a5.example.com" ]),
    ("sweden-a2.example.com", [ "sweden-pe1.example.com", "sweden-a6.example.com" ]),
    ("sweden-a3.example.com", [ "sweden-a1.example.com", "sweden-a7.example.com" ]),
    ("sweden-a4.example.com", [ "sweden-pe1.example.com" ]),
    ("sweden-a5.example.com", [ "sweden-a1.example.com" ]),
    ("sweden-a6.example.com", [ "sweden-a2.example.com" ]),
    ("sweden-a7.example.com", [ "sweden-a3.example.com" ])
  ]

/-- Dictionary lookup, `adj[h]` returning `none` instead of raising. -/
def lookupAdj : List (String × List String) → String → Option (List String)
  | [], _ => none
  | (k, vs) :: rest, h => if k = h then some vs else lookupAdj rest h

/-- A successful lookup means the key occurs among the table's keys. -/
theorem lookupAdj_mem {adj : List (String × List String)} {h : String}
    {vs : List String} (hl : lookupAdj adj h = some vs) : h ∈ adj.map Prod.fst := by
  induction adj with
  | nil => simp [lookupAdj] at hl
  | cons p rest ih =>
    obtain ⟨k, v⟩ := p
    by_cases hk : k = h
    · subst hk; simp
    · simp only [lookupAdj, if_neg hk] at hl
      simpa using Or.inr (ih hl)

/-- Marking an unvisited key as visited strictly shrinks the set of
unvisited keys — the termination measure of `find_root`. -/
theorem card_unvisited_lt (adj : List (String × List String)) {hostname : String}
    (visited : List String) (hvis : hostname ∉ visited)
    (hkey : hostname ∈ adj.map Prod.fst) :
    ((adj.map Prod.fst).toFinset \ (hostname :: visited).toFinset).card
      < ((adj.map Prod.fst).toFinset \ visited.toFinset).card := by
  have hmem : hostname ∈ (adj.map Prod.fst).toFinset \ visited.toFinset := by
    rw [Finset.mem_sdiff]
    exact ⟨List.mem_toFinset.2 hkey, fun hc => hvis (List.mem_toFinset.1 hc)⟩
  have hset : (adj.map Prod.fst).toFinset \ (hostname :: visited).toFinset
      = ((adj.map Prod.fst).toFinset \ visited.toFinset).erase hostname := by
    ext a
    simp only [List.toFinset_cons, Finset.mem_sdiff, Finset.mem_erase,
      Finset.mem_insert]
    tauto
  rw [hset]
  exact Finset.card_erase_lt_of_mem hmem

/-- Source function `find_root`.  The adjacency table is passed explicitly
(the source reads the global `STATIC_DATA`); a `KeyError` becomes
`.error hostname`.  The Python `for` loop returns in its first iteration,
so only the first neighbor is examined. -/
def find_root (adj : List (String × List String)) (hostname : String)
    (visited : List String) : Except String (Option String) :=
  if hvis : hostname ∈ visited then .ok none
  else if matchesPE hostname then .ok (some hostname)
  else
    match hl : lookupAdj adj hostname with
    | none => .error hostname
    | some [] => .ok none
    | some (neighbor :: _) =>
      if matchesPE neighbor then .ok (some neighbor)
      else find_root adj neighbor (hostname :: visited)
termination_by ((adj.map Prod.fst).toFinset \ visited.toFinset).card
decreasing_by
  exact card_unvisited_lt adj visited hvis (lookupAdj_mem hl)

/-- A tree node: its hostname, its parent and its children.  `parent` and
`children` hold indices into the arena of nodes, modelling Python object
references (object identity is index equality). -/
structure NetworkTreeNode where
  hostname : String
  parent : Option Nat
  children : List Nat
deriving DecidableEq

/-- The mutable state of the program: the arena of node objects and the
class-level `existing_nodes` dict (newest binding first). -/
structure Registry where
  nodes : List NetworkTreeNode
  existing_nodes : List (String × Nat)
deriving DecidableEq

/-- The registry at process start. -/
def emptyRegistry : Registry := ⟨[], []⟩

/-- Dereference a node index. -/
def getNode (st : Registry) (i : Nat) : NetworkTreeNode :=
  st.nodes.getD i ⟨"", none, []⟩

/-- Dict lookup in `existing_nodes` (first binding wins). -/
def lookupNode : List (String × Nat) → String → Option Nat
  | [], _ => none
  | (k, i) :: rest, h => if k = h then some i else lookupNode rest h

/-- Source method `NetworkTreeNode.get_existing_node`. -/
def get_existing_node (st : Registry) (hostname : String) : Option Nat :=
  lookupNode st.existing_nodes hostname

/-- Source constructor `NetworkTreeNode.__init__`: allocate a fresh node with
no parent and no children, and register it under its hostname
(`_add_to_existing`), unconditionally shadowing any previous binding. -/
def initNode (st : Registry) (hostname : String) : Registry × Nat :=
  ( ⟨st.nodes ++ [⟨hostname, none, []⟩],
     (hostname, st.nodes.length) :: st.existing_nodes⟩,
    st.nodes.length )

/-- Assignment `child.parent = p` on node `i`. -/
def setParent (st : Registry) (i : Nat) (p : Option Nat) : Registry :=
  ⟨st.nodes.set i { getNode st i with parent := p }, st.existing_nodes⟩

/-- Mutation `self.children.append(c)` on node `i`. -/
def appendChild (st : Registry) (i : Nat) (c : Nat) : Registry :=
  ⟨st.nodes.set i { getNode st i with children := (getNode st i).children ++ [c] },
   st.existing_nodes⟩

/-- Source method `NetworkTreeNode._add_child`: reuse or create the node
for `child_hostname`; if that node is already `self`'s parent return it
unchanged, otherwise set its parent to `self` and append it to `self`'s
children. -/
def add_child (st : Registry) (self : Nat) (child_hostname : String) :
    Registry × Nat :=
  let p :=
    match get_existing_node st child_hostname with
    | some child => (st, child)
    | none => initNode st child_hostname
  if (getNode p.1 self).parent = some p.2 then p
  else
    let st2 := setParent p.1 p.2 (some self)
    (appendChild st2 self p.2, p.2)

/-- The redundancy loop inside `find_neighbors`: for each backbone (MPLS)
neighbor, look up its own neighbor list (a missing key raises) and append
it to the dependant list when it has fewer than two backbone neighbors of
its own. -/
def redundancyLoop (adj : List (String × List String)) :
    List String → List String → Except String (List String)
  | [], dep => .ok dep
  | neighbor :: rest, dep =>
    match lookupAdj adj neighbor with
    | none => .error neighbor
    | some cdp_neighbors =>
      redundancyLoop adj rest
        (if (split_list_by_regex cdp_neighbors matchesPE).1.length < 2
         then dep ++ [neighbor] else dep)

/-- The dependant-neighbor list computed by `find_neighbors` for a node with
hostname `hostname` and neighbor list `cdp_neighbors`: the non-backbone
neighbors, extended by the redundancy rule when the node itself is
backbone. -/
def computeDependants (adj : List (String × List String)) (hostname : String)
    (cdp_neighbors : List String) : Except String (List String) :=
  if matchesPE hostname then
    redundancyLoop adj (split_list_by_regex cdp_neighbors matchesPE).1
      (split_list_by_regex cdp_neighbors matchesPE).2
  else .ok (split_list_by_regex cdp_neighbors matchesPE).2

/-- The `for neighbor in dependant_neighbors` loop of `find_neighbors`:
attach each dependant as a child, add the current node to the visited set,
and run the recursive step (`step`, the recursive call at the next fuel)
on the child.  The visited set and the registry thread through the loop,
exactly as Python's shared mutable set and objects do. -/
def childLoop (step : Nat → Registry → List Nat → Except String (Registry × List Nat))
    (self : Nat) : List String → Registry → List Nat →
    Except String (Registry × List Nat)
  | [], st, visited => .ok (st, visited)
  | neighbor :: rest, st, visited =>
    let p := add_child st self neighbor
    match step p.2 p.1 (visited.insert self) with
    | .error e => .error e
    | .ok sv => childLoop step self rest sv.1 sv.2

/-- Source method `NetworkTreeNode.find_neighbors`, with explicit fuel
bounding the recursion depth (the Python recursion is bounded by the
visited set; exhausted fuel returns the state unchanged).  Returns the
updated registry and visited set, or the missing key on a `KeyError`. -/
def find_neighbors (adj : List (String × List String)) :
    Nat → Nat → Registry → List Nat → Except String (Registry × List Nat)
  | 0, _, st, visited => .ok (st, visited)
  | fuel + 1, self, st, visited =>
    if self ∈ visited then .ok (st, visited)
    else
      match lookupAdj adj (getNode st self).hostname with
      | none => .error (getNode st self).hostname
      | some cdp_neighbors =>
        match computeDependants adj (getNode st self).hostname cdp_neighbors with
        | .error e => .error e
        | .ok dependant_neighbors =>
          childLoop (find_neighbors adj fuel) self dependant_neighbors st visited

/-- The tree-construction run of `main` on the reference dataset: build the
root node for `sweden-pe1.example.com` (the result of
`find_root("sweden-a1.example.com")`) and discover its neighbors. -/
def referenceRun : Except String (Registry × List Nat) :=
  find_neighbors STATIC_DATA 20
    (initNode emptyRegistry "sweden-pe1.example.com").2
    (initNode emptyRegistry "sweden-pe1.example.com").1 []

/-- The registry after the reference run. -/
def referenceState : Registry :=
  match referenceRun with
  | .ok sv => sv.1
  | .error _ => emptyRegistry

/-- Whether the reference run finished without a lookup error. -/
def runOk : Bool :=
  match referenceRun with
  | .ok _ => true
  | .error _ => false

/-- Hostnames of the children of node `i`, in attachment order. -/
def childHostnames (st : Registry) (i : Nat) : List String :=
  (getNode st i).children.map (fun j => (getNode st j).hostname)

/-- Number of backbone identifiers in `h`'s own neighbor list. -/
def backboneCount (adj : List (String × List String)) (h : String) : Nat :=
  (split_list_by_regex ((lookupAdj adj h).getD []) matchesPE).1.length

/-- Does following parent pointers from `i` reach `root` within `fuel`
hops?  Parent pointers are functional, so the parent path from a node is
unique; reaching the root means exactly one path back to it. -/
def parentChainReaches (st : Registry) : Nat → Nat → Nat → Bool
  | 0, i, root => i = root
  | fuel + 1, i, root =>
    i = root ||
      match (getNode st i).parent with
      | some p => parentChainReaches st fuel p root
      | none => false

/-- The nodes reachable from `i` by following children lists, to depth
`fuel` (with repetitions; membership is what matters). -/
def descendantsList (st : Registry) : Nat → Nat → List Nat
  | 0, i => [i]
  | fuel + 1, i => i :: (getNode st i).children.flatMap (descendantsList st fuel)

/-- The tree invariant claimed by the spec, decided on a finished registry:
every node reachable from `root` has a (necessarily unique) parent path
back to `root`, every child's parent pointer designates the parent whose
list it is in, a node occurs in that list exactly once, and a node with a
parent occurs in that parent's children list. -/
def treeCoherent (st : Registry) (root : Nat) : Bool :=
  let n := st.nodes.length
  ((descendantsList st n root).all fun i => parentChainReaches st n i root) &&
  ((List.range n).all fun i =>
    (getNode st i).children.all fun j => (getNode st j).parent = some i) &&
  ((List.range n).all fun j =>
    match (getNode st j).parent with
    | some i => (getNode st i).children.count j = 1
    | none => true)

/-- Adjacency table with a backbone root over a cycle of three dependant
devices: the third dependant reaches back to the first. -/
def cycleAdj : List (String × List String) :=
  [ ("r-pe1.x", ["a-a1.x"]),
    ("a-a1.x", ["b-a1.x"]),
    ("b-a1.x", ["c-a1.x"]),
    ("c-a1.x", ["a-a1.x"]) ]

/-- Tree construction on `cycleAdj` from its backbone root. -/
def cycleRun : Except String (Registry × List Nat) :=
  find_neighbors cycleAdj 10
    (initNode emptyRegistry "r-pe1.x").2
    (initNode emptyRegistry "r-pe1.x").1 []

/-- The registry after the `cycleAdj` run. -/
def cycleState : Registry :=
  match cycleRun with
  | .ok sv => sv.1
  | .error _ => emptyRegistry

/-- Whether the `cycleAdj` run finished without a lookup error. -/
def cycleRunOk : Bool :=
  match cycleRun with
  | .ok _ => true
  | .error _ => false

/-- A nonempty string of word characters (one regex label, `\w+`). -/
def IsWordStr (l : List Char) : Prop :=
  l ≠ [] ∧ ∀ c ∈ l, isWordChar c = true

/-- Concatenation of labels, each followed by a dash: `(?:\w+-)+` applied
to `labels`. -/
def labelsPart (labels : List (List Char)) : List Char :=
  labels.foldr (fun l acc => l ++ '-' :: acc) []

/-- The character shape recognized by the source's pattern
`^(?:\w+-)+pe?\d+\.`: one or more dash-terminated word labels, then a
literal `p`, an optional `e`, one or more digits and a dot, then anything. -/
def CodeShape (s : String) : Prop :=
  ∃ labels eOpt ds rest, labels ≠ [] ∧ (∀ l ∈ labels, IsWordStr l) ∧
    (eOpt = ([] : List Char) ∨ eOpt = ['e']) ∧
    ds ≠ [] ∧ (∀ c ∈ ds, c.isDigit = true) ∧
    s.data = labelsPart labels ++ 'p' :: (eOpt ++ ds ++ '.' :: rest)

/-- The shape asserted by the claim: one or more dash-terminated word
labels, then an optional `p`, a literal `e`, one or more digits and a dot,
then anything. -/
def ClaimShape (s : String) : Prop :=
  ∃ labels pOpt ds rest, labels ≠ [] ∧ (∀ l ∈ labels, IsWordStr l) ∧
    (pOpt = ([] : List Char) ∨ pOpt = ['p']) ∧
    ds ≠ [] ∧ (∀ c ∈ ds, c.isDigit = true) ∧
    s.data = labelsPart labels ++ pOpt ++ 'e' :: (ds ++ '.' :: rest)

/-- The shape matched by `matchTail`:  `pe?\d+\.` then anything. -/
def TailShape (cs : List Char) : Prop :=
  ∃ eOpt ds rest, (eOpt = ([] : List Char) ∨ eOpt = ['e']) ∧
    ds ≠ [] ∧ (∀ c ∈ ds, c.isDigit = true) ∧
    cs = 'p' :: (eOpt ++ ds ++ '.' :: rest)

/-- The shape matched by `matchRestM false`: zero or more dash-terminated
word labels, then a tail. -/
def RestShape (cs : List Char) : Prop :=
  ∃ labels tail, (∀ l ∈ labels, IsWordStr l) ∧ TailShape tail ∧
    cs = labelsPart labels ++ tail

/-- The shape matched by `matchRestM true`: the rest of a label already
begun (possibly empty), a dash, then a `RestShape`. -/
def AWShape (cs : List Char) : Prop :=
  ∃ w rest, (∀ c ∈ w, isWordChar c = true) ∧ RestShape rest ∧
    cs = w ++ '-' :: rest

theorem afterDigits_iff (cs : List Char) :
    afterDigits cs = true ↔
      ∃ ds rest, (∀ c ∈ ds, c.isDigit = true) ∧ cs = ds ++ '.' :: rest := by
  induction cs with
  | nil =>
    constructor
    · intro h; simp [afterDigits] at h
    · rintro ⟨ds, rest, -, h⟩; cases ds <;> simp at h
  | cons c rest ih =>
    by_cases hdot : c = '.'
    · subst hdot
      constructor
      · intro _; exact ⟨[], rest, by simp, rfl⟩
      · intro _; simp [afterDigits]
    · by_cases hdig : c.isDigit
      · have hstep : afterDigits (c :: rest) = afterDigits rest := by
          simp [afterDigits, hdot, hdig]
        constructor
        · intro h
          rw [hstep] at h
          obtain ⟨ds, r, hds, hr⟩ := ih.1 h
          refine ⟨c :: ds, r, ?_, by simp [hr]⟩
          intro x hx
          rcases List.mem_cons.1 hx with hx | hx
          · exact hx ▸ hdig
          · exact hds x hx
        · rintro ⟨ds, r, hds, hr⟩
          rw [hstep]
          cases ds with
          | nil => simp at hr; exact absurd hr.1 hdot
          | cons d ds' =>
            simp only [List.cons_append, List.cons.injEq] at hr
            exact ih.2 ⟨ds', r, fun x hx => hds x (by simp [hx]), hr.2⟩
      · constructor
        · intro h; simp [afterDigits, hdot, hdig] at h
        · rintro ⟨ds, r, hds, hr⟩
          cases ds with
          | nil => simp at hr; exact absurd hr.1 hdot
          | cons d ds' =>
            simp only [List.cons_append, List.cons.injEq] at hr
            exact absurd (hr.1 ▸ hds d (by simp)) (by simp [hdig])

theorem digitsDot_iff (cs : List Char) :
    digitsDot cs = true ↔
      ∃ ds rest, ds ≠ [] ∧ (∀ c ∈ ds, c.isDigit = true) ∧ cs = ds ++ '.' :: rest := by
  cases cs with
  | nil =>
    constructor
    · intro h; simp [digitsDot] at h
    · rintro ⟨ds, rest, -, -, h⟩; cases ds <;> simp at h
  | cons c rest =>
    simp only [digitsDot, Bool.and_eq_true]
    constructor
    · rintro ⟨hdig, haft⟩
      obtain ⟨ds, r, hds, hr⟩ := (afterDigits_iff rest).1 haft
      refine ⟨c :: ds, r, by simp, ?_, by simp [hr]⟩
      intro x hx
      rcases List.mem_cons.1 hx with hx | hx
      · exact hx ▸ hdig
      · exact hds x hx
    · rintro ⟨ds, r, hne, hds, hr⟩
      cases ds with
      | nil => exact absurd rfl hne
      | cons d ds' =>
        simp only [List.cons_append, List.cons.injEq] at hr
        refine ⟨hr.1 ▸ hds d (by simp), ?_⟩
        exact (afterDigits_iff rest).2 ⟨ds', r, fun x hx => hds x (by simp [hx]), hr.2⟩

theorem matchTailE_iff (cs : List Char) :
    matchTailE cs = true ↔
      ∃ ds rest, ds ≠ [] ∧ (∀ c ∈ ds, c.isDigit = true) ∧
        cs = 'e' :: (ds ++ '.' :: rest) := by
  cases cs with
  | nil =>
    constructor
    · intro h; simp [matchTailE] at h
    · rintro ⟨ds, rest, -, -, h⟩; simp at h
  | cons c rest =>
    simp only [matchTailE, Bool.and_eq_true, decide_eq_true_eq]
    constructor
    · rintro ⟨hc, hd⟩
      obtain ⟨ds, r, hne, hds, hr⟩ := (digitsDot_iff rest).1 hd
      exact ⟨ds, r, hne, hds, by rw [hc, hr]⟩
    · rintro ⟨ds, r, hne, hds, hr⟩
      simp only [List.cons.injEq] at hr
      exact ⟨hr.1, (digitsDot_iff rest).2 ⟨ds, r, hne, hds, hr.2⟩⟩

theorem matchTail_iff (cs : List Char) : matchTail cs = true ↔ TailShape cs := by
  cases cs with
  | nil =>
    constructor
    · intro h; simp [matchTail] at h
    · rintro ⟨eOpt, ds, rest, -, -, -, h⟩; simp at h
  | cons c rest =>
    simp only [matchTail, Bool.and_eq_true, Bool.or_eq_true, decide_eq_true_eq]
    constructor
    · rintro ⟨hc, he | hd⟩
      · obtain ⟨ds, r, hne, hds, hr⟩ := (matchTailE_iff rest).1 he
        exact ⟨['e'], ds, r, Or.inr rfl, hne, hds, by rw [hc, hr]; rfl⟩
      · obtain ⟨ds, r, hne, hds, hr⟩ := (digitsDot_iff rest).1 hd
        exact ⟨[], ds, r, Or.inl rfl, hne, hds, by rw [hc, hr]; rfl⟩
    · rintro ⟨eOpt, ds, r, hopt, hne, hds, hr⟩
      rcases hopt with hopt | hopt <;> subst hopt
      · simp only [List.nil_append, List.cons.injEq] at hr
        exact ⟨hr.1, Or.inr ((digitsDot_iff rest).2 ⟨ds, r, hne, hds, hr.2⟩)⟩
      · simp only [List.cons_append, List.cons.injEq] at hr
        exact ⟨hr.1, Or.inl ((matchTailE_iff rest).2 ⟨ds, r, hne, hds, hr.2⟩)⟩

theorem labelsPart_cons (l : List Char) (ls : List (List Char)) :
    labelsPart (l :: ls) = l ++ '-' :: labelsPart ls := rfl

theorem matchRestM_false_cons (c : Char) (rest : List Char) :
    matchRestM false (c :: rest)
      = (matchTail (c :: rest) || (isWordChar c && matchRestM true rest)) := by
  simp [matchRestM]

theorem matchRestM_true_cons (c : Char) (rest : List Char) :
    matchRestM true (c :: rest)
      = if c = '-' then matchRestM false rest
        else isWordChar c && matchRestM true rest := by
  simp [matchRestM]

theorem ne_dash_of_word {c : Char} (h : isWordChar c = true) : c ≠ '-' := by
  intro hc
  rw [hc] at h
  exact absurd h (by decide)

theorem matchRestM_iff (cs : List Char) :
    (matchRestM false cs = true ↔ RestShape cs) ∧
    (matchRestM true cs = true ↔ AWShape cs) := by
  induction cs with
  | nil =>
    constructor
    · constructor
      · intro h; simp [matchRestM] at h
      · rintro ⟨labels, tail, -, htail, heq⟩
        obtain ⟨eOpt, ds, r, -, -, -, htl⟩ := htail
        have htn : tail = [] := (List.append_eq_nil.1 heq.symm).2
        rw [htn] at htl; simp at htl
    · constructor
      · intro h; simp [matchRestM] at h
      · rintro ⟨w, r, -, -, heq⟩
        have := (List.append_eq_nil.1 heq.symm).2; simp at this
  | cons c rest ih =>
    obtain ⟨ihF, ihT⟩ := ih
    constructor
    · rw [matchRestM_false_cons]
      constructor
      · intro h
        rw [Bool.or_eq_true] at h
        rcases h with h | h
        · exact ⟨[], c :: rest, by simp, (matchTail_iff _).1 h, by simp [labelsPart]⟩
        · rw [Bool.and_eq_true] at h
          obtain ⟨hw, hm⟩ := h
          obtain ⟨w, r2, hwchars, hrs, hre⟩ := ihT.1 hm
          obtain ⟨labels, tail, hlb, ht, hr2⟩ := hrs
          refine ⟨(c :: w) :: labels, tail, ?_, ht, ?_⟩
          · intro l hl
            rcases List.mem_cons.1 hl with hl | hl
            · subst hl
              refine ⟨by simp, ?_⟩
              intro x hx
              rcases List.mem_cons.1 hx with hx | hx
              · exact hx ▸ hw
              · exact hwchars x hx
            · exact hlb l hl
          · rw [labelsPart_cons, hre, hr2]
            simp
      · rintro ⟨labels, tail, hlb, ht, heq⟩
        cases labels with
        | nil =>
          simp only [labelsPart, List.foldr_nil, List.nil_append] at heq
          rw [Bool.or_eq_true]
          exact Or.inl ((matchTail_iff _).2 (heq ▸ ht))
        | cons l ls =>
          rw [labelsPart_cons, List.append_assoc] at heq
          obtain ⟨hlne, hlchars⟩ := hlb l (by simp)
          cases l with
          | nil => exact absurd rfl hlne
          | cons lc lw =>
            simp only [List.cons_append, List.cons.injEq] at heq
            obtain ⟨hc, hrest⟩ := heq
            subst hc
            rw [Bool.or_eq_true, Bool.and_eq_true]
            refine Or.inr ⟨hlchars c (by simp), ?_⟩
            refine ihT.2 ⟨lw, labelsPart ls ++ tail, fun x hx => hlchars x (by simp [hx]), ?_, hrest⟩
            exact ⟨ls, tail, fun x hx => hlb x (by simp [hx]), ht, rfl⟩
    · rw [matchRestM_true_cons]
      constructor
      · intro h
        by_cases hc : c = '-'
        · rw [if_pos hc] at h
          exact ⟨[], rest, by simp, ihF.1 h, by rw [hc]; rfl⟩
        · rw [if_neg hc] at h
          rw [Bool.and_eq_true] at h
          obtain ⟨hw, hm⟩ := h
          obtain ⟨w, r2, hwchars, hrs, hre⟩ := ihT.1 hm
          refine ⟨c :: w, r2, ?_, hrs, by simp [hre]⟩
          intro x hx
          rcases List.mem_cons.1 hx with hx | hx
          · exact hx ▸ hw
          · exact hwchars x hx
      · rintro ⟨w, r2, hwchars, hrs, heq⟩
        cases w with
        | nil =>
          simp only [List.nil_append, List.cons.injEq] at heq
          obtain ⟨hc, hrest⟩ := heq
          rw [if_pos hc]
          exact ihF.2 (hrest ▸ hrs)
        | cons wc w' =>
          simp only [List.cons_append, List.cons.injEq] at heq
          obtain ⟨hc, hrest⟩ := heq
          subst hc
          have hword := hwchars c (by simp)
          rw [if_neg (ne_dash_of_word hword)]
          rw [Bool.and_eq_true]
          refine ⟨hword, ?_⟩
          exact ihT.2 ⟨w', r2, fun x hx => hwchars x (by simp [hx]), hrs, hrest⟩

theorem matchesPE_unfold (s : String) :
    matchesPE s = (match s.data with
      | [] => false
      | c :: rest => isWordChar c && matchRestM true rest) := rfl

/-- Any string of the claim's shape contains a literal `e`. -/
theorem ClaimShape_has_e {s : String} (h : ClaimShape s) : 'e' ∈ s.data := by
  obtain ⟨labels, pOpt, ds, rest, -, -, -, -, -, heq⟩ := h
  rw [heq]
  simp

/-- C1: the backbone classifier holds exactly on hostnames made of
dash-terminated word labels followed by a literal `p`, an OPTIONAL `e`,
one or more digits and a dot.  (This is the amended form of the claim:
the `p` is mandatory and the `e` optional, not the other way around.) -/
theorem c1_backbone_shape (s : String) : matchesPE s = true ↔ CodeShape s := by
  rw [matchesPE_unfold]
  cases hs : s.data with
  | nil =>
    constructor
    · intro h; simp at h
    · rintro ⟨labels, eOpt, ds, rest, -, -, -, -, -, heq⟩
      rw [hs] at heq
      have := (List.append_eq_nil.1 heq.symm).2
      simp at this
  | cons c rest =>
    simp only [Bool.and_eq_true]
    constructor
    · rintro ⟨hw, hm⟩
      obtain ⟨w, r2, hwchars, hrs, hre⟩ := (matchRestM_iff rest).2.1 hm
      obtain ⟨labels, tail, hlb, ht, hr2⟩ := hrs
      obtain ⟨eOpt, ds, rst, hopt, hdne, hds, htl⟩ := ht
      refine ⟨(c :: w) :: labels, eOpt, ds, rst, by simp, ?_, hopt, hdne, hds, ?_⟩
      · intro l hl
        rcases List.mem_cons.1 hl with hl | hl
        · subst hl
          refine ⟨by simp, ?_⟩
          intro x hx
          rcases List.mem_cons.1 hx with hx | hx
          · exact hx ▸ hw
          · exact hwchars x hx
        · exact hlb l hl
      · rw [hs, hre, hr2, htl, labelsPart_cons]
        simp
    · rintro ⟨labels, eOpt, ds, rst, hne, hlb, hopt, hdne, hds, heq⟩
      rw [hs] at heq
      cases labels with
      | nil => exact absurd rfl hne
      | cons l ls =>
        rw [labelsPart_cons, List.append_assoc] at heq
        obtain ⟨hlne, hlchars⟩ := hlb l (by simp)
        cases l with
        | nil => exact absurd rfl hlne
        | cons lc lw =>
          simp only [List.cons_append, List.cons.injEq] at heq
          obtain ⟨hc, hrest⟩ := heq
          subst hc
          refine ⟨hlchars c (by simp), ?_⟩
          refine (matchRestM_iff rest).2.2
            ⟨lw, labelsPart ls ++ 'p' :: (eOpt ++ ds ++ '.' :: rst),
             fun x hx => hlchars x (by simp [hx]), ?_, hrest⟩
          refine ⟨ls, 'p' :: (eOpt ++ ds ++ '.' :: rst),
            fun x hx => hlb x (by simp [hx]), ?_, rfl⟩
          exact ⟨eOpt, ds, rst, hopt, hdne, hds, rfl⟩

/-- C1, counterexample: `x-p1.y` is classified backbone by the code's
pattern, yet it does not have the claim's shape (optional `p`, literal
`e`): it contains no `e` at all. -/
theorem c1_counterexample :
    matchesPE "x-p1.y" = true ∧ ¬ ClaimShape "x-p1.y" := by
  refine ⟨by decide, ?_⟩
  intro h
  exact absurd (ClaimShape_has_e h) (by decide)

theorem find_root_visited {adj : List (String × List String)} {hostname : String}
    {visited : List String} (h : hostname ∈ visited) :
    find_root adj hostname visited = .ok none := by
  rw [find_root]
  rw [dif_pos h]

theorem find_root_self_pe {adj : List (String × List String)} {hostname : String}
    {visited : List String} (h1 : hostname ∉ visited)
    (h2 : matchesPE hostname = true) :
    find_root adj hostname visited = .ok (some hostname) := by
  rw [find_root, dif_neg h1, if_pos h2]

theorem find_root_missing {adj : List (String × List String)} {hostname : String}
    {visited : List String} (h1 : hostname ∉ visited)
    (h2 : matchesPE hostname = false) (h3 : lookupAdj adj hostname = none) :
    find_root adj hostname visited = .error hostname := by
  rw [find_root, dif_neg h1, if_neg (by simp [h2])]
  split
  · rfl
  · next heq => rw [h3] at heq; exact Option.noConfusion heq
  · next n r heq => rw [h3] at heq; exact Option.noConfusion heq

theorem find_root_nil {adj : List (String × List String)} {hostname : String}
    {visited : List String} (h1 : hostname ∉ visited)
    (h2 : matchesPE hostname = false) (h3 : lookupAdj adj hostname = some []) :
    find_root adj hostname visited = .ok none := by
  rw [find_root, dif_neg h1, if_neg (by simp [h2])]
  split
  · next heq => rw [h3] at heq; exact Option.noConfusion heq
  · rfl
  · next n r heq =>
      rw [h3] at heq
      simp at heq

theorem find_root_first_pe {adj : List (String × List String)}
    {hostname neighbor : String} {visited : List String} {rest : List String}
    (h1 : hostname ∉ visited) (h2 : matchesPE hostname = false)
    (h3 : lookupAdj adj hostname = some (neighbor :: rest))
    (h4 : matchesPE neighbor = true) :
    find_root adj hostname visited = .ok (some neighbor) := by
  rw [find_root, dif_neg h1, if_neg (by simp [h2])]
  split
  · next heq => rw [h3] at heq; exact Option.noConfusion heq
  · next heq => rw [h3] at heq; simp at heq
  · next n r heq =>
      rw [h3] at heq
      simp only [Option.some.injEq, List.cons.injEq] at heq
      obtain ⟨hn, -⟩ := heq
      rw [if_pos (hn ▸ h4)]
      rw [hn]

theorem find_root_step {adj : List (String × List String)}
    {hostname neighbor : String} {visited : List String} {rest : List String}
    (h1 : hostname ∉ visited) (h2 : matchesPE hostname = false)
    (h3 : lookupAdj adj hostname = some (neighbor :: rest))
    (h4 : matchesPE neighbor = false) :
    find_root adj hostname visited = find_root adj neighbor (hostname :: visited) := by
  rw [find_root, dif_neg h1, if_neg (by simp [h2])]
  split
  · next heq => rw [h3] at heq; exact Option.noConfusion heq
  · next heq => rw [h3] at heq; simp at heq
  · next n r heq =>
      rw [h3] at heq
      simp only [Option.some.injEq, List.cons.injEq] at heq
      obtain ⟨hn, -⟩ := heq
      rw [if_neg (by simp [hn ▸ h4])]
      rw [hn]

/-- Adjacency table for the C3 counterexample: the start's neighbor list
holds a backbone device in second position, behind a dead-end neighbor. -/
def adjC3 : List (String × List String) :=
  [ ("a-x1.d", ["b-y1.d", "c-pe1.d"]), ("b-y1.d", []) ]

/-- C3, counterexample: `a-x1.d` is non-backbone, its neighbor list
contains the backbone device `c-pe1.d`, yet `find_root` returns none —
it examines only the first neighbor `b-y1.d` and recurses into it,
never reaching the backbone neighbor listed after it. -/
theorem c3_counterexample :
    matchesPE "a-x1.d" = false ∧
    lookupAdj adjC3 "a-x1.d" = some ["b-y1.d", "c-pe1.d"] ∧
    matchesPE "c-pe1.d" = true ∧
    find_root adjC3 "a-x1.d" [] = .ok none := by
  refine ⟨by decide, by decide, by decide, ?_⟩
  have s1 := @find_root_step adjC3 "a-x1.d" "b-y1.d" [] ["c-pe1.d"]
    (by decide) (by decide) (by decide) (by decide)
  have s2 := @find_root_nil adjC3 "b-y1.d" ["a-x1.d"]
    (by decide) (by decide) (by decide)
  rw [s1, s2]

/-- C3: for every non-backbone start identifier whose neighbor list begins
with a backbone identifier, `find_root` returns that first neighbor.
(Amended: the code only ever examines the first element of the neighbor
list; a backbone neighbor in any later position is not considered.) -/
theorem c3_first_neighbor (adj : List (String × List String)) (start n : String)
    (rest : List String) (h1 : matchesPE start = false)
    (h2 : lookupAdj adj start = some (n :: rest)) (h3 : matchesPE n = true) :
    find_root adj start [] = .ok (some n) :=
  @find_root_first_pe adj start n [] rest (by simp) h1 h2 h3

/-- Adjacency table whose start has a backbone device first in its list. -/
def adjC3b : List (String × List String) :=
  [ ("a-x1.d", ["c-pe1.d", "b-y1.d"]) ]

theorem c3_witness : find_root adjC3b "a-x1.d" [] = .ok (some "c-pe1.d") :=
  c3_first_neighbor adjC3b "a-x1.d" "c-pe1.d" ["b-y1.d"]
    (by decide) (by decide) (by decide)

/-- C6: `find_root` returns none (and terminates — it is a total function)
when started inside a 2-cycle of non-backbone devices with non-backbone
first neighbors, and when the start's neighbor list is empty; and it
returns none immediately for any identifier already in the visited set. -/
theorem c6_cycle_termination (adj : List (String × List String)) (a b e : String)
    (restA restB : List String)
    (hab : a ≠ b) (ha : matchesPE a = false) (hb : matchesPE b = false)
    (hla : lookupAdj adj a = some (b :: restA))
    (hlb : lookupAdj adj b = some (a :: restB))
    (he : matchesPE e = false) (hle : lookupAdj adj e = some []) :
    find_root adj a [] = .ok none ∧ find_root adj e [] = .ok none ∧
    ∀ h visited, h ∈ visited → find_root adj h visited = .ok none := by
  refine ⟨?_, ?_, fun h visited hmem => find_root_visited hmem⟩
  · have s1 := @find_root_step adj a b [] restA (by simp) ha hla hb
    have s2 := @find_root_step adj b a [a] restB
      (fun hmem => hab (List.mem_singleton.1 hmem).symm) hb hlb ha
    have s3 : find_root adj a [b, a] = .ok none :=
      find_root_visited (by simp)
    rw [s1, s2, s3]
  · exact @find_root_nil adj e [] (by simp) he hle

/-- Adjacency table for the C6 witness: a pure 2-cycle plus an isolated
device with an empty neighbor list. -/
def adjC6 : List (String × List String) :=
  [ ("a-a1.x", ["b-a1.x"]), ("b-a1.x", ["a-a1.x"]), ("e-a1.x", []) ]

theorem c6_witness :
    find_root adjC6 "a-a1.x" [] = .ok none ∧
    find_root adjC6 "e-a1.x" [] = .ok none ∧
    find_root adjC6 "b-a1.x" ["b-a1.x"] = .ok none := by
  have h := c6_cycle_termination adjC6 "a-a1.x" "b-a1.x" "e-a1.x" [] []
    (by decide) (by decide) (by decide) (by decide) (by decide) (by decide)
    (by decide)
  exact ⟨h.1, h.2.1, h.2.2 "b-a1.x" ["b-a1.x"] (by simp)⟩

/-- Lemma: `find_root` only errors with a key that is absent from the table. -/
theorem find_root_error {adj : List (String × List String)} :
    ∀ (N : Nat) (hostname : String) (visited : List String) (e : String),
      ((adj.map Prod.fst).toFinset \ visited.toFinset).card ≤ N →
      find_root adj hostname visited = .error e → lookupAdj adj e = none := by
  intro N
  induction N with
  | zero =>
    intro hostname visited e hcard heq
    by_cases h1 : hostname ∈ visited
    · rw [find_root_visited h1] at heq; cases heq
    by_cases h2 : matchesPE hostname = true
    · rw [find_root_self_pe h1 h2] at heq; cases heq
    have h2' : matchesPE hostname = false := by simpa using h2
    cases h3 : lookupAdj adj hostname with
    | none =>
      rw [find_root_missing h1 h2' h3] at heq
      injection heq with h4
      exact h4 ▸ h3
    | some l =>
      have hkey := lookupAdj_mem h3
      have hpos : 0 < ((adj.map Prod.fst).toFinset \ visited.toFinset).card := by
        refine Finset.card_pos.2 ⟨hostname, ?_⟩
        rw [Finset.mem_sdiff]
        exact ⟨List.mem_toFinset.2 hkey, fun hc => h1 (List.mem_toFinset.1 hc)⟩
      omega
  | succ N ih =>
    intro hostname visited e hcard heq
    by_cases h1 : hostname ∈ visited
    · rw [find_root_visited h1] at heq; cases heq
    by_cases h2 : matchesPE hostname = true
    · rw [find_root_self_pe h1 h2] at heq; cases heq
    have h2' : matchesPE hostname = false := by simpa using h2
    cases h3 : lookupAdj adj hostname with
    | none =>
      rw [find_root_missing h1 h2' h3] at heq
      injection heq with h4
      exact h4 ▸ h3
    | some l =>
      cases l with
      | nil => rw [find_root_nil h1 h2' h3] at heq; cases heq
      | cons n r =>
        by_cases h4 : matchesPE n = true
        · rw [find_root_first_pe h1 h2' h3 h4] at heq; cases heq
        · have h4' : matchesPE n = false := by simpa using h4
          rw [find_root_step h1 h2' h3 h4'] at heq
          have hlt := card_unvisited_lt adj visited h1 (lookupAdj_mem h3)
          exact ih n (hostname :: visited) e (by omega) heq

/-- Lemma: `redundancyLoop` only errors with a key absent from the table. -/
theorem redundancyLoop_error {adj : List (String × List String)} :
    ∀ (lst dep : List String) (e : String),
      redundancyLoop adj lst dep = .error e → lookupAdj adj e = none := by
  intro lst
  induction lst with
  | nil =>
    intro dep e h
    rw [redundancyLoop] at h
    cases h
  | cons n rest ih =>
    intro dep e h
    rw [redundancyLoop] at h
    split at h
    · next heq =>
      injection h with h'
      exact h' ▸ heq
    · next cdp heq => exact ih _ e h

/-- Lemma: `computeDependants` only errors with a key absent from the table. -/
theorem computeDependants_error {adj : List (String × List String)}
    {hostname : String} {cdp : List String} {e : String}
    (h : computeDependants adj hostname cdp = .error e) :
    lookupAdj adj e = none := by
  rw [computeDependants] at h
  split at h
  · exact redundancyLoop_error _ _ e h
  · cases h

/-- An error of `childLoop` is an error of one of its `step` calls. -/
theorem childLoop_error
    {step : Nat → Registry → List Nat → Except String (Registry × List Nat)}
    {self : Nat} (P : String → Prop)
    (hstep : ∀ i st v e, step i st v = .error e → P e) :
    ∀ (lst : List String) (st : Registry) (visited : List Nat) (e : String),
      childLoop step self lst st visited = .error e → P e := by
  intro lst
  induction lst with
  | nil =>
    intro st visited e h
    rw [childLoop] at h
    cases h
  | cons n rest ih =>
    intro st visited e h
    rw [childLoop] at h
    split at h
    · next heq =>
      injection h with h'
      exact h' ▸ hstep _ _ _ _ heq
    · next sv heq => exact ih _ _ e h

/-- Lemma: `find_neighbors` only errors with a key absent from the table. -/
theorem find_neighbors_error {adj : List (String × List String)} :
    ∀ (fuel self : Nat) (st : Registry) (visited : List Nat) (e : String),
      find_neighbors adj fuel self st visited = .error e →
      lookupAdj adj e = none := by
  intro fuel
  induction fuel with
  | zero =>
    intro self st visited e h
    rw [find_neighbors] at h
    cases h
  | succ fuel ih =>
    intro self st visited e h
    rw [find_neighbors] at h
    split at h
    · cases h
    · split at h
      · next heq =>
        injection h with h'
        exact h' ▸ heq
      · next cdp heq =>
        split at h
        · next e2 heq2 =>
          injection h with h'
          exact h' ▸ computeDependants_error heq2
        · next dep heq2 =>
          exact childLoop_error (fun x => lookupAdj adj x = none)
            (fun i st' v' e' hst => ih i st' v' e' hst) _ _ _ e h

/-- C9: a request for the neighbor list of an identifier absent from the
adjacency source produces exactly a lookup error carrying that identifier,
in `find_root` and in `find_neighbors` alike; it propagates to the caller
unhandled, and both operations produce no error of any other origin
(every error value they return is an absent key). -/
theorem c9_lookup_errors (adj : List (String × List String)) :
    (∀ hostname visited, hostname ∉ visited → matchesPE hostname = false →
        lookupAdj adj hostname = none →
        find_root adj hostname visited = .error hostname)
  ∧ (∀ hostname visited e, find_root adj hostname visited = .error e →
        lookupAdj adj e = none)
  ∧ (∀ fuel self st visited, self ∉ visited →
        lookupAdj adj (getNode st self).hostname = none →
        find_neighbors adj (fuel + 1) self st visited
          = .error (getNode st self).hostname)
  ∧ (∀ fuel self st visited e, find_neighbors adj fuel self st visited = .error e →
        lookupAdj adj e = none) := by
  refine ⟨?_, ?_, ?_, fun fuel self st visited e h => find_neighbors_error _ _ _ _ e h⟩
  · exact fun hostname visited h1 h2 h3 => find_root_missing h1 h2 h3
  · exact fun hostname visited e h =>
      find_root_error ((adj.map Prod.fst).toFinset \ visited.toFinset).card
        hostname visited e le_rfl h
  · intro fuel self st visited h1 h2
    rw [find_neighbors, if_neg h1]
    split
    · rfl
    · next cdp heq => rw [h2] at heq; exact Option.noConfusion heq

/-- Adjacency table for the C9 witness: one device pointing at an
identifier with no entry of its own. -/
def adjC9 : List (String × List String) := [ ("a-a1.x", ["ghost-a1.x"]) ]

theorem c9_witness :
    find_root adjC9 "ghost-a1.x" [] = .error "ghost-a1.x" ∧
    lookupAdj adjC9 "ghost-a1.x" = none ∧
    find_neighbors adjC9 1 0 (initNode emptyRegistry "ghost-a1.x").1 []
      = .error "ghost-a1.x" := by
  have h := c9_lookup_errors adjC9
  refine ⟨h.1 "ghost-a1.x" [] (by simp) (by decide) (by decide), ?_, ?_⟩
  · have s1 := @find_root_step adjC9 "a-a1.x" "ghost-a1.x" [] []
      (by simp) (by decide) (by decide) (by decide)
    have s2 := h.1 "ghost-a1.x" ["a-a1.x"] (by decide) (by decide) (by decide)
    exact h.2.1 "a-a1.x" [] "ghost-a1.x" (by rw [s1, s2])
  · exact h.2.2.1 0 0 (initNode emptyRegistry "ghost-a1.x").1 [] (by simp) (by decide)

/-- A backbone neighbor lacks redundancy when its own neighbor list holds
fewer than two backbone identifiers. -/
def lacksRedundancy (adj : List (String × List String)) (n : String) : Bool :=
  (split_list_by_regex ((lookupAdj adj n).getD []) matchesPE).1.length < 2

/-- When every listed neighbor has an entry, the redundancy loop appends —
in their original order — exactly the neighbors lacking redundancy. -/
theorem redundancyLoop_ok {adj : List (String × List String)} :
    ∀ (lst dep : List String),
      (∀ n ∈ lst, ∃ l, lookupAdj adj n = some l) →
      redundancyLoop adj lst dep
        = .ok (dep ++ lst.filter (lacksRedundancy adj)) := by
  intro lst
  induction lst with
  | nil =>
    intro dep h
    rw [redundancyLoop]
    simp
  | cons n rest ih =>
    intro dep h
    obtain ⟨l, hl⟩ := h n (by simp)
    have hln : lacksRedundancy adj n
        = decide ((split_list_by_regex l matchesPE).1.length < 2) := by
      rw [lacksRedundancy, hl, Option.getD_some]
    rw [redundancyLoop]
    split
    · next heq => rw [hl] at heq; exact Option.noConfusion heq
    · next cdp heq =>
      rw [hl] at heq
      injection heq with heq'
      subst heq'
      rw [ih _ (fun x hx => h x (List.mem_cons_of_mem _ hx))]
      rw [List.filter_cons]
      by_cases hc : (split_list_by_regex l matchesPE).1.length < 2
      · rw [if_pos hc]
        have : lacksRedundancy adj n = true := by rw [hln]; simpa using hc
        rw [this]
        simp
      · rw [if_neg hc]
        have : lacksRedundancy adj n = false := by rw [hln]; simpa using hc
        rw [this]
        simp

/-- C5: at a backbone node — and only there — the dependant list attached
as children is the non-backbone neighbors followed by exactly those
backbone neighbors that have fewer than two backbone neighbors of their
own, in the backbone neighbors' original order; and `find_neighbors`
hands precisely that list to its child-attachment loop. -/
theorem c5_redundancy_rule (adj : List (String × List String)) (hostname : String)
    (cdp : List String) :
    (matchesPE hostname = false →
      computeDependants adj hostname cdp = .ok (split_list_by_regex cdp matchesPE).2)
  ∧ (matchesPE hostname = true →
      (∀ n ∈ (split_list_by_regex cdp matchesPE).1, ∃ l, lookupAdj adj n = some l) →
      computeDependants adj hostname cdp
        = .ok ((split_list_by_regex cdp matchesPE).2
            ++ (split_list_by_regex cdp matchesPE).1.filter (lacksRedundancy adj)))
  ∧ (∀ fuel self st visited dep, self ∉ visited →
      lookupAdj adj (getNode st self).hostname = some cdp →
      computeDependants adj (getNode st self).hostname cdp = .ok dep →
      find_neighbors adj (fuel + 1) self st visited
        = childLoop (find_neighbors adj fuel) self dep st visited) := by
  refine ⟨?_, ?_, ?_⟩
  · intro hb
    rw [computeDependants, if_neg (by simp [hb])]
  · intro hb hlk
    rw [computeDependants, if_pos hb]
    exact redundancyLoop_ok _ _ hlk
  · intro fuel self st visited dep h1 h2 h3
    rw [find_neighbors, if_neg h1]
    split
    · next heq => rw [h2] at heq; exact Option.noConfusion heq
    · next cdp2 heq =>
      rw [h2] at heq
      injection heq with heq'
      subst heq'
      split
      · next e2 heq2 => rw [h3] at heq2; exact Except.noConfusion heq2
      · next dep2 heq2 =>
        rw [h3] at heq2
        injection heq2 with h'
        rw [h']

/-- Adjacency table for the C5 witness: a backbone node with one backbone
neighbor (which has a single backbone neighbor itself) and one dependant. -/
def adjC5 : List (String × List String) :=
  [ ("a-pe1.x", ["b-pe1.x", "c-a1.x"]), ("b-pe1.x", ["a-pe1.x"]) ]

theorem c5_witness :
    computeDependants adjC5 "a-pe1.x" ["b-pe1.x", "c-a1.x"]
      = .ok ["c-a1.x", "b-pe1.x"] := by
  refine Eq.trans
    ((c5_redundancy_rule adjC5 "a-pe1.x" ["b-pe1.x", "c-a1.x"]).2.1 (by decide) ?_)
    (by rfl)
  intro n hn
  have hl : (split_list_by_regex ["b-pe1.x", "c-a1.x"] matchesPE).1 = ["b-pe1.x"] := by
    decide
  rw [hl] at hn
  have hn' : n = "b-pe1.x" := by simpa using hn
  subst hn'
  exact ⟨["a-pe1.x"], by decide⟩

/-- C7: if `_add_child` is asked for a hostname whose registered node is
already the calling node's own parent, it returns that node with the whole
registry unchanged — no new node, no parent or children mutation — and
the subsequent recursion into that node mutates nothing either once the
node is in the visited set (the caller put it there before descending). -/
theorem c7_add_child_noop (adj : List (String × List String)) (st : Registry)
    (self c fuel : Nat) (visited : List Nat) (ch : String)
    (hex : get_existing_node st ch = some c)
    (hpar : (getNode st self).parent = some c) :
    add_child st self ch = (st, c) ∧
    (c ∈ visited → find_neighbors adj fuel c st visited = .ok (st, visited)) := by
  constructor
  · simp [add_child, hex, hpar]
  · intro hc
    cases fuel with
    | zero => rw [find_neighbors]
    | succ f => rw [find_neighbors, if_pos hc]

/-- Registry for the C7 witness: a root with one attached child. -/
def stC7 : Registry :=
  ⟨[⟨"r-pe1.x", none, [1]⟩, ⟨"b-a1.x", some 0, []⟩],
   [("r-pe1.x", 0), ("b-a1.x", 1)]⟩

theorem c7_witness :
    add_child stC7 1 "r-pe1.x" = (stC7, 0) ∧
    find_neighbors [] 5 0 stC7 [0] = .ok (stC7, [0]) := by
  have h := c7_add_child_noop [] stC7 1 0 5 [0] "r-pe1.x" (by decide) (by decide)
  exact ⟨h.1, h.2 (by decide)⟩

/-- C8: the classifier is total and its two outputs exactly partition the
input — the first holds precisely the matching items, the second precisely
the non-matching ones, both as subsequences (hence in original relative
order), their concatenation is a permutation of the input, and the empty
input yields two empty sequences. -/
theorem c8_split_partition (p : String → Bool) (lst : List String) :
    split_list_by_regex [] p = ([], []) ∧
    (split_list_by_regex lst p).1.Sublist lst ∧
    (split_list_by_regex lst p).2.Sublist lst ∧
    (∀ x ∈ (split_list_by_regex lst p).1, p x = true) ∧
    (∀ x ∈ (split_list_by_regex lst p).2, p x = false) ∧
    ((split_list_by_regex lst p).1 ++ (split_list_by_regex lst p).2).Perm lst := by
  refine ⟨rfl, List.filter_sublist _, List.filter_sublist _, ?_, ?_, ?_⟩
  · intro x hx
    exact (List.mem_filter.1 hx).2
  · intro x hx
    have hb := (List.mem_filter.1 hx).2
    simpa using hb
  · exact List.filter_append_perm _ lst

theorem c8_witness : matchesPE "a-pe1.b" = true :=
  (c8_split_partition matchesPE ["a-pe1.b", "x.y"]).2.2.2.1 "a-pe1.b" (by decide)

/-- C10: the `NetworkTreeNode` constructor always allocates a fresh node
(hostname set, no parent, no children) and registers it under its
hostname, unconditionally shadowing any previous registration, so an
immediate `get_existing_node` returns the new instance. -/
theorem c10_constructor_registers (st : Registry) (h : String) :
    (initNode st h).2 = st.nodes.length ∧
    (initNode st h).1.nodes.length = st.nodes.length + 1 ∧
    getNode (initNode st h).1 (initNode st h).2 = ⟨h, none, []⟩ ∧
    get_existing_node (initNode st h).1 h = some (initNode st h).2 := by
  refine ⟨rfl, by simp [initNode], ?_, ?_⟩
  · rw [initNode, getNode]
    simp
  · rw [initNode, get_existing_node]
    simp [lookupNode]

/-- C2, counterexample: in the reference run rooted at
`sweden-pe1.example.com`, `norway-pe1.example.com` has three backbone
neighbors of its own (not fewer than two), is never attached as a child of
the root, and no node is even created for it. -/
theorem c2_counterexample :
    runOk = true ∧
    backboneCount STATIC_DATA "norway-pe1.example.com" = 3 ∧
    get_existing_node referenceState "norway-pe1.example.com" = none ∧
    "norway-pe1.example.com" ∉ childHostnames referenceState 0 :=
  ⟨by decide, by decide, by decide, by decide⟩

/-- C2: building the tree rooted at `sweden-pe1.example.com` (the root
`find_root` picks for `sweden-a1.example.com`) attaches
`denmark-pe2.example.com` — the one backbone neighbor with fewer than two
backbone neighbors of its own — as a dependent child of the root, after
the non-backbone children; `norway-pe1.example.com` and
`finland-pe1.example.com`, which have at least two backbone neighbors of
their own, are not attached and get no nodes at all. -/
theorem c2_reference_run :
    find_root STATIC_DATA "sweden-a1.example.com" []
      = .ok (some "sweden-pe1.example.com") ∧
    runOk = true ∧
    childHostnames referenceState 0
      = ["sweden-a1.example.com", "sweden-a2.example.com",
         "sweden-a4.example.com", "denmark-pe2.example.com"] ∧
    backboneCount STATIC_DATA "denmark-pe2.example.com" < 2 ∧
    2 ≤ backboneCount STATIC_DATA "norway-pe1.example.com" ∧
    2 ≤ backboneCount STATIC_DATA "finland-pe1.example.com" ∧
    get_existing_node referenceState "norway-pe1.example.com" = none ∧
    get_existing_node referenceState "finland-pe1.example.com" = none := by
  refine ⟨?_, by decide, by decide, by decide, by decide, by decide, by decide,
    by decide⟩
  exact @find_root_first_pe STATIC_DATA "sweden-a1.example.com"
    "sweden-pe1.example.com" []
    ["sweden-a3.example.com", "sweden-a5.example.com"]
    (by simp) (by decide) (by decide) (by decide)

/-- C4, counterexample: on `cycleAdj`, after `find_root` picks the backbone
root and the tree is built from it, node 1 (`a-a1.x`) is reachable from
the root and listed among the root's children, yet its parent pointer
designates node 3 — so the children list and the parent pointer disagree,
and following parent pointers from node 1 never reaches the root. -/
theorem c4_counterexample :
    find_root cycleAdj "r-pe1.x" [] = .ok (some "r-pe1.x") ∧
    cycleRunOk = true ∧
    1 ∈ descendantsList cycleState 4 0 ∧
    (getNode cycleState 0).children = [1] ∧
    (getNode cycleState 1).parent = some 3 ∧
    parentChainReaches cycleState 4 1 0 = false :=
  ⟨@find_root_self_pe cycleAdj "r-pe1.x" [] (by simp) (by decide),
   by decide, by decide, by decide, by decide, by decide⟩

/-- C4: after the reference tree-construction run, every node reachable
from the constructed root has a parent chain leading back to the root
(hence exactly one path, parent pointers being functional), every entry of
a children list is mirrored by the child's parent pointer, and every
parent pointer is mirrored by exactly one entry in that parent's children
list. -/
theorem c4_reference_invariant :
    runOk = true ∧ treeCoherent referenceState 0 = true :=
  ⟨by decide, by decide⟩

example : matchesPE "sweden-pe1.example.com" = true := by decide
example : matchesPE "denmark-pe2.example.com" = true := by decide
example : matchesPE "greenland-pe1.example.com" = true := by decide
example : matchesPE "sweden-a1.example.com" = false := by decide
example : matchesPE "denmark-a1.example.com" = false := by decide
example : matchesPE "x-p1.y" = true := by decide
example : matchesPE "y-e1.z" = false := by decide
example : matchesPE "a-pe-pe1.x" = true := by decide
example : matchesPE "pe1.x" = false := by decide
